import Mathlib

/-!
# Golang_RPC_Framework: framing, registry, server loop and client stub

A shallow embedding of `src/rpc/session.go`, `src/rpc/codec.go`,
`src/rpc/server.go` and `src/rpc/client.go`.

* A `net.Conn` is a record: the segments its `Read` will still deliver, the
  error it reports once they are used up, the results its `Write` will report,
  and the log of buffers handed to `Write`.
* `io.ReadFull` is the loop of `io.ReadAtLeast` over `Conn.Read`.
* `encoding/gob` is not part of the repository: the codec is a parameter.
* `reflect` values are a small closed universe of Go types and values.
-/

set_option autoImplicit false

namespace rpc

/-! ## Bytes and the connection -/

/-- One octet. -/
abbrev Byte := Fin 256

/-- Conversion `byte(v)`: the low eight bits. -/
def byteOf (v : Nat) : Byte := ⟨v % 256, Nat.mod_lt v (by decide)⟩

/-- Errors an I/O call reports. `EOF` and `ErrUnexpectedEOF` are the two
sentinels of package `io`; every other error is `other`. -/
inductive IOErr where
  | EOF
  | ErrUnexpectedEOF
  | other (code : Nat)
deriving DecidableEq, Repr

/-- A `net.Conn`, seen from one end.

* `incoming`: the segments successive `Read` calls will deliver, in order
  (the transport fragments and coalesces as it likes);
* `closeErr`: what `Read` reports once `incoming` is used up (`EOF` for an
  orderly close);
* `writeResults`: the `(n, err)` the transport will report for successive
  `Write` calls; when used up, a `Write` accepts the whole buffer;
* `written`: the buffers handed to `Write` so far, oldest first. -/
structure Conn where
  id : Nat
  incoming : List (List Byte)
  closeErr : IOErr
  writeResults : List (Nat × Option IOErr)
  written : List (List Byte)
deriving DecidableEq, Repr

/-- One call `conn.Read(p)` with `len(p) = n > 0`: at most `n` bytes of the
first pending segment, or `(0, closeErr)` when nothing is pending. -/
def Conn.Read (c : Conn) (n : Nat) : (List Byte × Option IOErr) × Conn :=
  match c.incoming with
  | [] => (([], some c.closeErr), c)
  | seg :: rest =>
    if seg.length ≤ n then ((seg, none), { c with incoming := rest })
    else ((seg.take n, none), { c with incoming := seg.drop n :: rest })

/-- One call `conn.Write(buf)`: the buffer is logged and the transport's next
scripted result is reported (`(len(buf), nil)` when the script is used up). -/
def Conn.Write (c : Conn) (buf : List Byte) : (Nat × Option IOErr) × Conn :=
  match c.writeResults with
  | [] => ((buf.length, none), { c with written := c.written ++ [buf] })
  | r :: rs => (r, { c with writeResults := rs, written := c.written ++ [buf] })

/-- The loop of `io.ReadAtLeast`:
`for n < min && err == nil { nn, err = r.Read(buf[n:]); n += nn }`.
`got` is `buf[:n]`; the argument list is the connection's `incoming`, and each
round is one `Conn.Read` of `min - n` bytes (lemma `readLoop_step`). Returns
the bytes read, whether a `Read` reported the connection's error, and the
segments left pending. -/
def readLoop (min : Nat) : List (List Byte) → List Byte → List Byte × Bool × List (List Byte)
  | [], got => if got.length < min then (got, true, []) else (got, false, [])
  | seg :: rest, got =>
    if got.length < min then
      if seg.length ≤ min - got.length then readLoop min rest (got ++ seg)
      else (got ++ seg.take (min - got.length), false, seg.drop (min - got.length) :: rest)
    else (got, false, seg :: rest)

/-- Call `io.ReadFull(conn, buf)` with `len(buf) = n` and `buf` zeroed by
`make`: returns the buffer, the error, and the connection afterwards.
`ReadAtLeast` ends with
`if n >= min { err = nil } else if n > 0 && err == EOF { err = ErrUnexpectedEOF }`. -/
def ReadFull (c : Conn) (n : Nat) : (List Byte × Option IOErr) × Conn :=
  let r := readLoop n c.incoming []
  let got := r.1
  let buf := got ++ List.replicate (n - got.length) (0 : Byte)
  let err : Option IOErr :=
    if got.length ≥ n then none
    else if got.length > 0 ∧ c.closeErr = IOErr.EOF then some IOErr.ErrUnexpectedEOF
    else some c.closeErr
  ((buf, err), { c with incoming := r.2.2 })

/-! ## `encoding/binary` big-endian 32-bit words -/

/-- Call `binary.BigEndian.PutUint32(b, v)` on a buffer of at least four
bytes: `b[0] = byte(v >> 24)`, `b[1] = byte(v >> 16)`, `b[2] = byte(v >> 8)`,
`b[3] = byte(v)`; the rest of `b` is untouched. -/
def PutUint32 (b : List Byte) (v : Nat) : List Byte :=
  [byteOf (v / 2 ^ 24), byteOf (v / 2 ^ 16), byteOf (v / 2 ^ 8), byteOf v] ++ b.drop 4

/-- Call `binary.BigEndian.Uint32(b)`:
`uint32(b[3]) | uint32(b[2])<<8 | uint32(b[1])<<16 | uint32(b[0])<<24`. -/
def Uint32 (b : List Byte) : Nat :=
  (b.getD 0 0).val * 2 ^ 24 + (b.getD 1 0).val * 2 ^ 16 + (b.getD 2 0).val * 2 ^ 8 + (b.getD 3 0).val

/-- Conversion `uint32(n)` of a non-negative `int`. -/
def uint32 (n : Nat) : Nat := n % 2 ^ 32

/-- Builtin `copy(dst[off:], src)`: overwrites `min(len(dst) - off, len(src))`
bytes of `dst` from offset `off`. -/
def copyAt (dst : List Byte) (off : Nat) (src : List Byte) : List Byte :=
  dst.take off ++ src.take (dst.length - off) ++ dst.drop (off + Nat.min (dst.length - off) src.length)

/-! ## session.go -/

/-- The `Session` struct: a wrapper around one connection. -/
structure Session where
  conn : Conn
deriving DecidableEq, Repr

/-- Function `NewSession`. -/
def NewSession (conn : Conn) : Session := ⟨conn⟩

/-- The buffer `Session.Write` builds (session.go lines 24-31):
`make([]byte, 4+len(data))`, then `PutUint32(buf[:4], uint32(len(data)))`,
then `copy(buf[4:], data)`. -/
def Session.frame (data : List Byte) : List Byte :=
  let buf := List.replicate (4 + data.length) (0 : Byte)
  let buf := PutUint32 (buf.take 4) (uint32 data.length) ++ buf.drop 4
  copyAt buf 4 data

/-- Method `Session.Write` (session.go lines 22-37): one `conn.Write(buf)`;
the count it reports is discarded, its error is returned. -/
def Session.Write (s : Session) (data : List Byte) : Option IOErr × Session :=
  let buf := Session.frame data
  let r := s.conn.Write buf
  match r.1.2 with
  | some err => (some err, ⟨r.2⟩)
  | none => (none, ⟨r.2⟩)

/-- Method `Session.Read` (session.go lines 40-59). The result is Go's pair
`([]byte, error)`: `none` in the first place is a nil slice. -/
def Session.Read (s : Session) : (Option (List Byte) × Option IOErr) × Session :=
  let h := ReadFull s.conn 4
  match h.1.2 with
  | some err => ((none, some err), ⟨h.2⟩)
  | none =>
    let dataLen := Uint32 h.1.1
    let d := ReadFull h.2 dataLen
    match d.1.2 with
    | some err => ((none, some err), ⟨d.2⟩)
    | none => ((some d.1.1, none), ⟨d.2⟩)

/-- The bytes a call `s.Write(data)` handed to the connection: what its write
log gained. -/
def Session.emitted (s : Session) (data : List Byte) : List Byte :=
  ((s.Write data).2.conn.written.drop s.conn.written.length).flatten

/-- Text as bytes, for examples (ASCII). -/
def bytesOf (s : String) : List Byte := s.toList.map (fun ch => byteOf ch.toNat)

/-- A connection with nothing pending and nothing written. -/
def idleConn (id : Nat) : Conn := ⟨id, [], IOErr.EOF, [], []⟩


/-! ## Go values as `reflect` sees them -/

/-- The Go types of the model: three basic types, the struct `User` of
`rpc_test.go`, the pointer type of the values `fmt.Errorf` returns, and the
interface types `error` and `interface{}`. -/
inductive Ty where
  | int
  | string
  | bool
  | User
  | ptrErrorString
  | error
  | emptyInterface
deriving DecidableEq, Repr

/-- A dynamic value: what a non-nil `interface{}` holds. `ptrErrorString none`
is the nil pointer of type `*errors.errorString`. A Go `int` is a 64-bit
integer; the example procedures wrap their results with `wrapInt64`. -/
inductive Val where
  | int (i : Int)
  | string (s : String)
  | bool (b : Bool)
  | User (Name : String) (Age : Int)
  | ptrErrorString (p : Option String)
deriving DecidableEq, Repr

/-- The dynamic type of a value. -/
def Val.typeOf : Val → Ty
  | .int _ => Ty.int
  | .string _ => Ty.string
  | .bool _ => Ty.bool
  | .User _ _ => Ty.User
  | .ptrErrorString _ => Ty.ptrErrorString

/-- Go assignability of a value of type `v` to a variable of type `t`:
identical types, or `t` is an interface that `v` implements. -/
def Ty.AssignableTo (v t : Ty) : Bool :=
  match t with
  | .emptyInterface => true
  | .error => v == Ty.ptrErrorString || v == Ty.error
  | _ => v == t

/-- The zero value of a type, as an `interface{}`: nil for the interface
types. -/
def Ty.zeroVal : Ty → Option Val
  | .int => some (Val.int 0)
  | .string => some (Val.string "")
  | .bool => some (Val.bool false)
  | .User => some (Val.User "" 0)
  | .ptrErrorString => some (Val.ptrErrorString none)
  | .error => none
  | .emptyInterface => none

/-- A valid `reflect.Value`: either made from a dynamic value, or the zero
value of a type. The zero `reflect.Value` (invalid, no type) is `none` of
`Option RValue`. -/
inductive RValue where
  | of (v : Val)
  | zero (t : Ty)
deriving DecidableEq, Repr

/-- Function `reflect.ValueOf(i interface{})`: the zero Value for nil. -/
def ValueOf : Option Val → Option RValue
  | none => none
  | some v => some (RValue.of v)

/-- Function `reflect.Zero(typ)`. -/
def Zero (t : Ty) : RValue := RValue.zero t

/-- Method `Value.Type()`. -/
def RValue.typ : RValue → Ty
  | .of v => v.typeOf
  | .zero t => t

/-- Method `Value.Interface()` on a valid Value. -/
def RValue.Interface : RValue → Option Val
  | .of v => some v
  | .zero t => t.zeroVal

/-- The ways the program can panic. -/
inductive Panic where
  | callArgCount
  | callZeroValue
  | callArgType
  | outIndexRange
  | makeFuncReturnCount
  | makeFuncZeroValue
  | makeFuncReturnType
  | encodeErr (code : Nat)
  | decodeErr (code : Nat)
  | ioErr (e : IOErr)
deriving DecidableEq, Repr

/-- A function value held in a `reflect.Value`: its parameter types and what
it computes, from the arguments as `interface{}` values to the results as
Values. -/
structure Func where
  ins : List Ty
  body : List (Option Val) → List RValue

/-- Whether every argument of a `Call` is a valid Value. -/
def allValid : List (Option RValue) → Bool
  | [] => true
  | none :: _ => false
  | some _ :: rest => allValid rest

/-- Whether every argument is assignable to its parameter's type. -/
def argsAssignable : List Ty → List (Option RValue) → Bool
  | t :: ts, some a :: rest => a.typ.AssignableTo t && argsAssignable ts rest
  | _, _ => true

/-- Method `Value.Call(in)` on a function value: it panics when the argument
count is not the parameter count, else when an argument is the zero Value,
else when an argument is not assignable to its parameter's type. -/
def Func.Call (f : Func) (inArgs : List (Option RValue)) : Except Panic (List RValue) :=
  if inArgs.length ≠ f.ins.length then Except.error Panic.callArgCount
  else if allValid inArgs = false then Except.error Panic.callZeroValue
  else if argsAssignable f.ins inArgs = false then Except.error Panic.callArgType
  else Except.ok (f.body (inArgs.map (fun a => Option.bind a RValue.Interface)))

/-- A function type: parameter types and result types. -/
structure FuncType where
  ins : List Ty
  outs : List Ty
deriving DecidableEq, Repr

/-- Method `Type.Out(i)`: panics when `i` is not in `[0, NumOut())`. -/
def FuncType.Out (t : FuncType) (i : Nat) : Except Panic Ty :=
  match t.outs.get? i with
  | some ty => Except.ok ty
  | none => Except.error Panic.outIndexRange

/-! ## codec.go -/

/-- The `RPCData` struct. A nil `interface{}` in `Args` is `none`. -/
structure RPCData where
  Name : String
  Args : List (Option Val)
deriving DecidableEq, Repr

/-- The functions `encode` and `decode` of codec.go hand their argument to
`encoding/gob` and return its result and error unchanged; gob is a
parameter. -/
structure Codec where
  encode : RPCData → Except Nat (List Byte)
  decode : List Byte → Except Nat RPCData

/-! ## server.go -/

/-- The `Server` struct. The Go map `funcs` is an association list read with
`List.lookup`; `Register` keeps its keys distinct. -/
structure Server where
  addr : String
  funcs : List (String × Func)

/-- Function `NewServer`. -/
def NewServer (addr : String) : Server := ⟨addr, []⟩

/-- Method `Server.Register` (server.go lines 26-33). The `interface{}`
argument is taken to be a function, stored as `reflect.ValueOf(f)`. -/
def Server.Register (s : Server) (rpcName : String) (f : Func) : Server :=
  match s.funcs.lookup rpcName with
  | some _ => s
  | none => { s with funcs := (rpcName, f) :: s.funcs }

/-- Why `Server.Run` returned. -/
inductive Exit where
  | listenErr
  | acceptErr
  | readErr (e : IOErr)
  | decodeErr (code : Nat)
  | noFunc (name : String)
  | encodeErr (code : Nat)
  | writeErr (e : IOErr)
  | panicked (p : Panic)
deriving DecidableEq, Repr

/-- One pass through the body of the loop of `Server.Run` after `Accept`
(server.go lines 52-106) on the accepted connection. `none` in the first place:
the pass reached the end of the body and the loop goes round; `some e`: the
pass executed `return` (or panicked). The second place is the connection
afterwards. -/
def Server.serveConn (codec : Codec) (s : Server) (conn : Conn) : Option Exit × Conn :=
  let srvSession := NewSession conn
  let r := srvSession.Read
  match r.1.2 with
  | some err => (some (Exit.readErr err), r.2.conn)
  | none =>
    match codec.decode (r.1.1.getD []) with
    | Except.error e => (some (Exit.decodeErr e), r.2.conn)
    | Except.ok rpcData =>
      match s.funcs.lookup rpcData.Name with
      | none => (some (Exit.noFunc rpcData.Name), r.2.conn)
      | some f =>
        let inArgs := rpcData.Args.map ValueOf
        match f.Call inArgs with
        | Except.error p => (some (Exit.panicked p), r.2.conn)
        | Except.ok out =>
          let outArgs := out.map RValue.Interface
          let respRPCData : RPCData := ⟨rpcData.Name, outArgs⟩
          match codec.encode respRPCData with
          | Except.error e => (some (Exit.encodeErr e), r.2.conn)
          | Except.ok respBytes =>
            let w := r.2.Write respBytes
            match w.1 with
            | some err => (some (Exit.writeErr err), w.2.conn)
            | none => (none, w.2.conn)

/-- What a run of the server did: the connections it accepted, each as the
run left it, in order; the connections still waiting in the listener; and why
`Run` returned. -/
structure RunResult where
  handled : List Conn
  pending : List Conn
  exit : Exit
deriving DecidableEq, Repr

/-- The `for` loop of `Server.Run` (server.go lines 44-107) over the
connections the listener will hand out; `Accept` reports an error once there
are none left. -/
def Server.acceptLoop (codec : Codec) (s : Server) : List Conn → RunResult
  | [] => ⟨[], [], Exit.acceptErr⟩
  | conn :: rest =>
    let r := s.serveConn codec conn
    match r.1 with
    | some e => ⟨[r.2], rest, e⟩
    | none =>
      let q := Server.acceptLoop codec s rest
      ⟨r.2 :: q.handled, q.pending, q.exit⟩

/-- Method `Server.Run` (server.go lines 36-108). `listen` is the outcome of
`net.Listen`: `none` when it fails, else the connections to come. -/
def Server.Run (codec : Codec) (s : Server) (listen : Option (List Conn)) : RunResult :=
  match listen with
  | none => ⟨[], [], Exit.listenErr⟩
  | some queue => s.acceptLoop codec queue

/-! ## client.go -/

/-- The `Client` struct: it holds one connection. -/
structure Client where
  conn : Conn
deriving DecidableEq, Repr

/-- Function `NewClient`. -/
def NewClient (conn : Conn) : Client := ⟨conn⟩

/-- The first half of the closure `f` of `Client.callRPC` (client.go lines
34-66): marshal the arguments, write the request on a Session over `c.conn`,
read and decode the response. Every error is `panic(err)`. -/
def Client.roundTrip (codec : Codec) (c : Client) (rpcName : String) (args : List RValue) :
    Except Panic RPCData × Client :=
  let inArgs := args.map RValue.Interface
  let cliSession := NewSession c.conn
  let reqRPC : RPCData := ⟨rpcName, inArgs⟩
  match codec.encode reqRPC with
  | Except.error e => (Except.error (Panic.encodeErr e), c)
  | Except.ok b =>
    let w := cliSession.Write b
    match w.1 with
    | some err => (Except.error (Panic.ioErr err), ⟨w.2.conn⟩)
    | none =>
      let r := w.2.Read
      match r.1.2 with
      | some err => (Except.error (Panic.ioErr err), ⟨r.2.conn⟩)
      | none =>
        match codec.decode (r.1.1.getD []) with
        | Except.error e => (Except.error (Panic.decodeErr e), ⟨r.2.conn⟩)
        | Except.ok respRPC => (Except.ok respRPC, ⟨r.2.conn⟩)

/-- The second half of the closure (client.go lines 68-79): the loop over
`respRPC.Args` from index `i`. -/
def outArgsFrom (fnType : FuncType) : Nat → List (Option Val) → Except Panic (List (Option RValue))
  | _, [] => Except.ok []
  | i, none :: rest =>
    match fnType.Out i with
    | Except.error p => Except.error p
    | Except.ok t =>
      match outArgsFrom fnType (i + 1) rest with
      | Except.error p => Except.error p
      | Except.ok vs => Except.ok (some (Zero t) :: vs)
  | i, some v :: rest =>
    match outArgsFrom fnType (i + 1) rest with
    | Except.error p => Except.error p
    | Except.ok vs => Except.ok (ValueOf (some v) :: vs)

/-- The closure `f` of `Client.callRPC` (client.go lines 33-80). -/
def Client.callRPC_f (codec : Codec) (c : Client) (rpcName : String) (fnType : FuncType)
    (args : List RValue) : Except Panic (List (Option RValue)) × Client :=
  let r := c.roundTrip codec rpcName args
  match r.1 with
  | Except.error p => (Except.error p, r.2)
  | Except.ok respRPC => (outArgsFrom fnType 0 respRPC.Args, r.2)

/-- Whether each returned Value is valid and assignable to its result type. -/
def resultsCheck : List Ty → List (Option RValue) → Except Panic (List RValue)
  | t :: ts, some v :: rest =>
    if v.typ.AssignableTo t then
      match resultsCheck ts rest with
      | Except.error p => Except.error p
      | Except.ok vs => Except.ok (v :: vs)
    else Except.error Panic.makeFuncReturnType
  | _ :: _, none :: _ => Except.error Panic.makeFuncZeroValue
  | _, _ => Except.ok []

/-- What a function made by `reflect.MakeFunc(typ, f)` does with the slice `f`
returned: it panics on a wrong count, on a zero Value and on a Value not
assignable to its result type, and hands the Values back otherwise. -/
def makeFuncResults (fnType : FuncType) (out : List (Option RValue)) : Except Panic (List RValue) :=
  if out.length ≠ fnType.outs.length then Except.error Panic.makeFuncReturnCount
  else resultsCheck fnType.outs out

/-- The stub `Client.callRPC` stores in `*fPtr` (client.go lines 85-87):
`reflect.MakeFunc(fn.Type(), f)`, applied to arguments. -/
def Client.stub (codec : Codec) (c : Client) (rpcName : String) (fnType : FuncType)
    (args : List RValue) : Except Panic (List RValue) × Client :=
  let r := c.callRPC_f codec rpcName fnType args
  match r.1 with
  | Except.error p => (Except.error p, r.2)
  | Except.ok out => (makeFuncResults fnType out, r.2)

/-- What the stub returns once the round trip has produced the response
values `resp`. -/
def stubResults (fnType : FuncType) (resp : List (Option Val)) : Except Panic (List RValue) :=
  match outArgsFrom fnType 0 resp with
  | Except.error p => Except.error p
  | Except.ok out => makeFuncResults fnType out

/-! ## Example data -/

/-- The payload of `TestSession_ReadWrite`. -/
def helloRpc : List Byte := bytesOf "hello rpc"

/-- A reading end whose transport delivers the frame of `helloRpc` followed by
the byte 7, cut into three segments at odd places. -/
def helloReader : Session :=
  NewSession ⟨1, [[0, 0], [0, 9, 104, 101, 108], [108, 111, 32, 114, 112, 99, 7]], IOErr.EOF, [], []⟩

/-- A reading end whose peer closed after two header bytes. -/
def cutHeaderReader : Session := NewSession ⟨2, [[0, 0]], IOErr.EOF, [], []⟩

/-- A reading end whose peer announced nine bytes and closed after three. -/
def cutPayloadReader : Session :=
  NewSession ⟨3, [[0, 0, 0, 9], [104, 101, 108]], IOErr.EOF, [], []⟩

/-- The contract of `io.Writer` for the call `c.Write(buf)`: the count is at
most `len(buf)`, and "Write must return a non-nil error if it returns
n < len(p)". Every `net.Conn` is an `io.Writer`. -/
def Conn.WriteObeysContract (c : Conn) (buf : List Byte) : Prop :=
  (c.Write buf).1.1 ≤ buf.length ∧ ((c.Write buf).1.1 < buf.length → (c.Write buf).1.2 ≠ none)

instance (c : Conn) (buf : List Byte) : Decidable (c.WriteObeysContract buf) := by
  unfold Conn.WriteObeysContract
  exact inferInstance

/-- A connection whose next `Write` reports three bytes accepted and an
error. -/
def failingWriteConn : Conn := ⟨5, [], IOErr.EOF, [(3, some (IOErr.other 1))], []⟩

/-- The value the response value `a` yields in a result slot of type `t`:
the zero value of `t` when `a` is nil, the value itself otherwise. -/
def slotValue (t : Ty) : Option Val → RValue
  | none => Zero t
  | some v => RValue.of v

/-- Go's `int` arithmetic on a 64-bit platform: results wrap. -/
def wrapInt64 (i : Int) : Int := (i + 2 ^ 63) % 2 ^ 64 - 2 ^ 63

/-- An example procedure, `func addOne(x int) int { return x + 1 }`. -/
def addOne : Func :=
  ⟨[Ty.int], fun args =>
    match args with
    | [some (Val.int x)] => [RValue.of (Val.int (wrapInt64 (x + 1)))]
    | _ => []⟩

/-- An example procedure, `func addTwo(x int) int { return x + 2 }`. -/
def addTwo : Func :=
  ⟨[Ty.int], fun args =>
    match args with
    | [some (Val.int x)] => [RValue.of (Val.int (wrapInt64 (x + 2)))]
    | _ => []⟩

/-- The procedure `queryUser` of rpc_test.go. -/
def queryUser : Func :=
  ⟨[Ty.int], fun args =>
    match args with
    | [some (Val.int uid)] =>
      if uid = 0 then [RValue.of (Val.User "ives" 20), Zero Ty.error]
      else if uid = 1 then [RValue.of (Val.User "Tom" 18), Zero Ty.error]
      else if uid = 2 then [RValue.of (Val.User "Jack" 30), Zero Ty.error]
      else [RValue.of (Val.User "" 0),
        RValue.of (Val.ptrErrorString (some ("id " ++ toString uid ++ " not in user db")))]
    | _ => []⟩

/-- A test double for the codec: a finite table of envelopes and their
encodings. An envelope outside the table does not encode, bytes outside the
table do not decode. -/
def tableCodec (tbl : List (RPCData × List Byte)) : Codec :=
  ⟨fun d =>
    match tbl.lookup d with
    | some b => Except.ok b
    | none => Except.error 1,
   fun b =>
    match tbl.find? (fun p => p.2 == b) with
    | some p => Except.ok p.1
    | none => Except.error 2⟩

/-- The codec of the examples. -/
def exampleCodec : Codec :=
  tableCodec
    [(⟨"addOne", [some (Val.int 5)]⟩, bytesOf "Q5"),
     (⟨"addOne", [some (Val.int 6)]⟩, bytesOf "R6"),
     (⟨"addOne", [some (Val.int 7)]⟩, bytesOf "R7"),
     (⟨"addOne", []⟩, bytesOf "Q0"),
     (⟨"addOne", [none, none]⟩, bytesOf "NN"),
     (⟨"nope", []⟩, bytesOf "Q?"),
     (⟨"queryUser", [some (Val.int 2)]⟩, bytesOf "U2"),
     (⟨"queryUser", [some (Val.User "Jack" 30), none]⟩, bytesOf "J")]

/-- A server with `addOne` registered under its name. -/
def addOneServer : Server := (NewServer "127.0.0.1:8080").Register "addOne" addOne

/-- A connection on which the peer has sent one frame with payload `b`, cut in
two segments, and then waits. -/
def requestConn (id : Nat) (b : List Byte) : Conn :=
  ⟨id, [(Session.frame b).take 3, (Session.frame b).drop 3], IOErr.EOF, [], []⟩

/-- A client whose connection will deliver the given response payloads, one
frame each. -/
def clientWith (id : Nat) (resps : List (List Byte)) : Client :=
  NewClient ⟨id, resps.map Session.frame, IOErr.EOF, [], []⟩

/-- The prototype `func(int) int`. -/
def intToInt : FuncType := ⟨[Ty.int], [Ty.int]⟩

/-- The prototype `func(int) (User, error)` of rpc_test.go. -/
def queryProto : FuncType := ⟨[Ty.int], [Ty.User, Ty.error]⟩

/-! ## Lemmas: reading -/

theorem readLoop_step (min : Nat) (c : Conn) (got : List Byte) (h : got.length < min) :
    readLoop min c.incoming got =
      match (c.Read (min - got.length)).1.2 with
      | none =>
        readLoop min (c.Read (min - got.length)).2.incoming (got ++ (c.Read (min - got.length)).1.1)
      | some _ => (got, true, []) := by
  cases hin : c.incoming with
  | nil => simp [readLoop, Conn.Read, hin, h]
  | cons seg rest =>
    by_cases hseg : seg.length ≤ min - got.length
    · simp [readLoop, Conn.Read, hin, h, hseg]
    · have hl : ¬ (got.length + (min - got.length) < min) := by omega
      have hm : Nat.min (min - got.length) seg.length = min - got.length :=
        Nat.min_eq_left (by omega)
      simp [readLoop, Conn.Read, hin, h, hseg, hl, hm]

theorem readLoop_enough (min : Nat) (segs : List (List Byte)) :
    ∀ got : List Byte, min ≤ got.length + segs.flatten.length →
      (readLoop min segs got).1 = got ++ segs.flatten.take (min - got.length) ∧
      (readLoop min segs got).2.1 = false ∧
      (readLoop min segs got).2.2.flatten = segs.flatten.drop (min - got.length) := by
  induction segs with
  | nil =>
    intro got h
    have h0 : min - got.length = 0 := by simp at h; omega
    have h1 : ¬ got.length < min := by simp at h; omega
    simp [readLoop, h1]
  | cons seg rest ih =>
    intro got h
    by_cases hlt : got.length < min
    · by_cases hseg : seg.length ≤ min - got.length
      · have hrec := ih (got ++ seg) (by simp at h ⊢; omega)
        have e : min - (got ++ seg).length = min - got.length - seg.length := by
          simp; omega
        rw [e] at hrec
        simp only [readLoop, hlt, hseg, if_true, List.flatten_cons]
        refine ⟨?_, hrec.2.1, ?_⟩
        · rw [hrec.1, List.take_append_eq_append_take, List.take_of_length_le hseg]
          simp
        · rw [hrec.2.2, List.drop_append_eq_append_drop, List.drop_of_length_le hseg]
          simp
      · have hseg2 : min - got.length ≤ seg.length := by omega
        simp only [readLoop, hlt, hseg, if_true, if_false, List.flatten_cons]
        refine ⟨?_, by simp, ?_⟩
        · rw [List.take_append_eq_append_take]
          have : min - got.length - seg.length = 0 := by omega
          simp [this]
        · rw [List.drop_append_eq_append_drop]
          have : min - got.length - seg.length = 0 := by omega
          simp [this]
    · have h0 : min - got.length = 0 := by omega
      simp [readLoop, hlt, h0]

theorem readLoop_short (min : Nat) (segs : List (List Byte)) :
    ∀ got : List Byte, got.length + segs.flatten.length < min →
      (readLoop min segs got).1 = got ++ segs.flatten ∧
      (readLoop min segs got).2.1 = true ∧
      (readLoop min segs got).2.2 = [] := by
  induction segs with
  | nil =>
    intro got h
    have h1 : got.length < min := by simp at h; omega
    simp [readLoop, h1]
  | cons seg rest ih =>
    intro got h
    have hlt : got.length < min := by omega
    have hseg : seg.length ≤ min - got.length := by simp at h; omega
    have hrec := ih (got ++ seg) (by simp at h ⊢; omega)
    simp only [readLoop, hlt, hseg, if_true, List.flatten_cons]
    refine ⟨?_, hrec.2.1, hrec.2.2⟩
    rw [hrec.1]; simp

theorem ReadFull_enough (c : Conn) (n : Nat) (h : n ≤ c.incoming.flatten.length) :
    (ReadFull c n).1 = (c.incoming.flatten.take n, none) ∧
    (ReadFull c n).2.incoming.flatten = c.incoming.flatten.drop n := by
  have hl := readLoop_enough n c.incoming [] (by simpa using h)
  simp only [List.length_nil, Nat.sub_zero, List.nil_append] at hl
  have hlen : (readLoop n c.incoming []).1.length = n := by
    rw [hl.1, List.length_take]; omega
  refine ⟨?_, ?_⟩
  · simp only [ReadFull, hlen, Nat.sub_self, List.replicate_zero, List.append_nil, ge_iff_le,
      le_refl, if_true]
    rw [hl.1]
  · simp only [ReadFull]
    exact hl.2.2

theorem ReadFull_short (c : Conn) (n : Nat) (h : c.incoming.flatten.length < n) :
    (ReadFull c n).1.2 ≠ none ∧ (ReadFull c n).2.incoming = [] := by
  have hl := readLoop_short n c.incoming [] (by simpa using h)
  simp only [List.nil_append] at hl
  have hlen : ¬ (readLoop n c.incoming []).1.length ≥ n := by
    rw [hl.1]; omega
  refine ⟨?_, ?_⟩
  · simp only [ReadFull, hlen, if_false]
    split <;> simp
  · simp only [ReadFull]
    exact hl.2.2

/-! ## Lemmas: the frame -/

theorem frame_eq (data : List Byte) :
    Session.frame data =
      [byteOf (uint32 data.length / 2 ^ 24), byteOf (uint32 data.length / 2 ^ 16),
        byteOf (uint32 data.length / 2 ^ 8), byteOf (uint32 data.length)] ++ data := by
  simp [Session.frame, PutUint32, copyAt, List.take_replicate, List.drop_replicate]
  omega

theorem Uint32_header (v : Nat) (rest : List Byte) :
    Uint32 ([byteOf (v / 2 ^ 24), byteOf (v / 2 ^ 16), byteOf (v / 2 ^ 8), byteOf v] ++ rest)
      = v % 2 ^ 32 := by
  simp only [Uint32, byteOf, List.cons_append, List.getD_cons_zero, List.getD_cons_succ]
  omega

theorem frame_length (data : List Byte) : (Session.frame data).length = 4 + data.length := by
  rw [frame_eq]; simp; omega

theorem frame_header (data : List Byte) :
    Uint32 ((Session.frame data).take 4) = data.length % 2 ^ 32 := by
  have h := Uint32_header (uint32 data.length) []
  simp only [List.append_nil] at h
  have ht : ∀ (a b c d : Byte) (l : List Byte), List.take 4 ([a, b, c, d] ++ l) = [a, b, c, d] :=
    fun _ _ _ _ _ => by simp
  rw [frame_eq, ht, h, uint32, Nat.mod_mod]

theorem Session.Write_conn (s : Session) (data : List Byte) :
    (s.Write data).2.conn = (s.conn.Write (Session.frame data)).2 := by
  simp only [Session.Write]
  split <;> rfl

theorem Session.Write_err (s : Session) (data : List Byte) :
    (s.Write data).1 = (s.conn.Write (Session.frame data)).1.2 := by
  simp only [Session.Write]
  split <;> simp_all

theorem Conn.Write_written (c : Conn) (buf : List Byte) :
    (c.Write buf).2.written = c.written ++ [buf] := by
  simp only [Conn.Write]
  split <;> rfl

theorem Conn.Write_rest (c : Conn) (buf : List Byte) :
    (c.Write buf).2.id = c.id ∧ (c.Write buf).2.incoming = c.incoming ∧
      (c.Write buf).2.closeErr = c.closeErr := by
  simp only [Conn.Write]
  split <;> exact ⟨rfl, rfl, rfl⟩

theorem Session.emitted_eq (s : Session) (data : List Byte) :
    s.emitted data = Session.frame data := by
  simp [Session.emitted, Session.Write_conn, Conn.Write_written]

theorem Session.Read_frame (r : Session) (P R : List Byte) (hlen : P.length < 2 ^ 32)
    (hs : r.conn.incoming.flatten = Session.frame P ++ R) :
    r.Read.1 = (some P, none) ∧ r.Read.2.conn.incoming.flatten = R := by
  rw [frame_eq] at hs
  have h4 : 4 ≤ r.conn.incoming.flatten.length := by rw [hs]; simp
  have hh := ReadFull_enough r.conn 4 h4
  have hhdr : (ReadFull r.conn 4).1.1 =
      [byteOf (uint32 P.length / 2 ^ 24), byteOf (uint32 P.length / 2 ^ 16),
        byteOf (uint32 P.length / 2 ^ 8), byteOf (uint32 P.length)] := by
    rw [hh.1, hs]; rfl
  have herr : (ReadFull r.conn 4).1.2 = none := by rw [hh.1]
  have hrest : (ReadFull r.conn 4).2.incoming.flatten = P ++ R := by
    rw [hh.2, hs]; rfl
  have hlenv : Uint32 (ReadFull r.conn 4).1.1 = P.length := by
    have := Uint32_header (uint32 P.length) []
    rw [hhdr]
    simp only [List.append_nil] at this
    rw [this, uint32, Nat.mod_mod, Nat.mod_eq_of_lt hlen]
  have hd := ReadFull_enough (ReadFull r.conn 4).2 P.length (by rw [hrest]; simp)
  rw [hrest] at hd
  simp only [List.take_left', List.drop_left'] at hd
  simp only [Session.Read, herr, hlenv, hd.1]
  exact ⟨trivial, hd.2⟩

theorem ReadFull_err (c : Conn) (n : Nat) :
    ((ReadFull c n).1.2 = none ↔ n ≤ c.incoming.flatten.length) := by
  constructor
  · intro h
    by_contra hn
    exact (ReadFull_short c n (by omega)).1 h
  · intro h
    rw [(ReadFull_enough c n h).1]

theorem Session.Read_some (s : Session) (data : List Byte) (h : s.Read.1.1 = some data) :
    4 ≤ s.conn.incoming.flatten.length ∧
    4 + Uint32 (s.conn.incoming.flatten.take 4) ≤ s.conn.incoming.flatten.length ∧
    data.length = Uint32 (s.conn.incoming.flatten.take 4) ∧ s.Read.1.2 = none := by
  simp only [Session.Read] at h ⊢
  split at h
  · simp at h
  · rename_i herr
    have h4 := (ReadFull_err s.conn 4).1 herr
    have hh := ReadFull_enough s.conn 4 h4
    split at h
    · simp at h
    · rename_i herr2
      have hn := (ReadFull_err _ _).1 herr2
      have hd := ReadFull_enough _ _ hn
      simp only [herr, herr2]
      simp only [Option.some.injEq] at h
      rw [hh.1] at hn hd
      simp only at hn hd
      rw [hh.2, List.length_drop] at hn
      refine ⟨h4, by omega, ?_, trivial⟩
      rw [← h, hh.1, hd.1]
      simp only [List.length_take, hh.2, List.length_drop]
      omega

/-! ## Claims about the frame -/

/-- C1: for every payload `P` with `len(P) < 2^32` (the empty one included) and
every trailing byte sequence `R`, if the stream a reading Session is given
holds, in whatever segments, the bytes some `Session.Write` emitted for `P`
followed by `R`, then `Session.Read` returns `P` with a nil error and leaves
exactly `R` unread. -/
theorem frame_round_trip (w r : Session) (P R : List Byte) (hlen : P.length < 2 ^ 32)
    (hs : r.conn.incoming.flatten = w.emitted P ++ R) :
    r.Read.1 = (some P, none) ∧ r.Read.2.conn.incoming.flatten = R := by
  rw [Session.emitted_eq] at hs
  exact Session.Read_frame r P R hlen hs

/-- Witness of C1: the payload of the test, written on one connection and read
from a stream that delivers it in three odd segments, followed by one more
byte. -/
theorem frame_round_trip_witness :
    helloReader.Read.1 = (some helloRpc, none) ∧
      helloReader.Read.2.conn.incoming.flatten = [7] :=
  frame_round_trip (NewSession (idleConn 0)) helloReader helloRpc [7] (by decide) (by decide)

/-- C2 (as the code has it): for every payload, `Session.Write` hands the
connection exactly one buffer; it has `4 + len(payload)` bytes; its first four
bytes are the big-endian encoding of `len(payload) mod 2^32`, which is
`len(payload)` whenever `len(payload) < 2^32`; the bytes after them are the
payload unchanged. -/
theorem Write_single_frame (s : Session) (data : List Byte) :
    ∃ buf : List Byte,
      (s.Write data).2.conn.written = s.conn.written ++ [buf] ∧
      buf.length = 4 + data.length ∧
      buf.take 4 = PutUint32 (List.replicate 4 0) (data.length % 2 ^ 32) ∧
      Uint32 (buf.take 4) = data.length % 2 ^ 32 ∧
      (data.length < 2 ^ 32 → Uint32 (buf.take 4) = data.length) ∧
      buf.drop 4 = data := by
  refine ⟨Session.frame data, ?_, ?_, ?_, ?_, ?_, ?_⟩
  · rw [Session.Write_conn, Conn.Write_written]
  · rw [frame_eq]; simp; omega
  · rw [frame_eq]; simp [PutUint32, uint32]
  · exact frame_header data
  · intro hlt
    rw [frame_header, Nat.mod_eq_of_lt hlt]
  · rw [frame_eq]; rfl

/-- C2 fails as stated: for a payload of `2^32` bytes the four header bytes
encode 0, not the payload's length. -/
theorem Write_header_wraps_counterexample :
    (List.replicate 4294967296 (0 : Byte)).length = 4294967296 ∧
      Uint32 (((NewSession (idleConn 0)).emitted (List.replicate 4294967296 (0 : Byte))).take 4)
        = 0 := by
  refine ⟨List.length_replicate _ _, ?_⟩
  rw [Session.emitted_eq, frame_header, List.length_replicate]
  decide

/-- C7: when the stream ends before four header bytes, or before as many
payload bytes as the header announces, `Session.Read` returns a nil payload
and an error; and whenever it does return a payload, the payload has exactly
the announced length and the error is nil. -/
theorem Read_all_or_nothing (s : Session) :
    ((s.conn.incoming.flatten.length < 4 ∨
        s.conn.incoming.flatten.length < 4 + Uint32 (s.conn.incoming.flatten.take 4)) →
      s.Read.1.1 = none ∧ ∃ e, s.Read.1.2 = some e) ∧
    (∀ data, s.Read.1.1 = some data →
      data.length = Uint32 (s.conn.incoming.flatten.take 4) ∧ s.Read.1.2 = none) := by
  constructor
  · intro hshort
    have hnone : s.Read.1.1 = none := by
      cases hd : s.Read.1.1 with
      | none => rfl
      | some data =>
        have := Session.Read_some s data hd
        omega
    refine ⟨hnone, ?_⟩
    simp only [Session.Read] at hnone ⊢
    split
    · exact ⟨_, rfl⟩
    · rename_i herr
      simp only [herr] at hnone
      split
      · exact ⟨_, rfl⟩
      · rename_i herr2
        simp [herr2] at hnone
  · intro data hd
    have := Session.Read_some s data hd
    exact ⟨this.2.2.1, this.2.2.2⟩

/-- Witness of C7: a peer that closes after two header bytes, and a peer that
announces nine bytes and closes after three. -/
theorem Read_all_or_nothing_witness :
    (cutHeaderReader.Read.1.1 = none ∧ ∃ e, cutHeaderReader.Read.1.2 = some e) ∧
    (cutPayloadReader.Read.1.1 = none ∧ ∃ e, cutPayloadReader.Read.1.2 = some e) :=
  ⟨(Read_all_or_nothing cutHeaderReader).1 (Or.inl (by decide)),
   (Read_all_or_nothing cutPayloadReader).1 (Or.inr (by decide))⟩

theorem Register_lookup_fresh (s : Server) (n : String) (f : Func)
    (h : s.funcs.lookup n = none) : (s.Register n f).funcs.lookup n = some f := by
  simp [Server.Register, h, List.lookup]

theorem Register_lookup_present (s : Server) (n : String) (f h : Func)
    (hp : s.funcs.lookup n = some h) : s.Register n f = s := by
  simp [Server.Register, hp]

theorem Register_twice (s : Server) (n : String) (f g : Func) :
    (s.Register n f).Register n g = s.Register n f := by
  cases hl : s.funcs.lookup n with
  | some h => rw [Register_lookup_present s n f h hl, Register_lookup_present s n g h hl]
  | none => exact Register_lookup_present _ n g f (Register_lookup_fresh s n f hl)

theorem serveConn_congr (codec : Codec) (s t : Server) (conn : Conn)
    (h : ∀ d, codec.decode ((NewSession conn).Read.1.1.getD []) = Except.ok d →
      s.funcs.lookup d.Name = t.funcs.lookup d.Name) :
    s.serveConn codec conn = t.serveConn codec conn := by
  simp only [Server.serveConn]
  split
  · rfl
  · split
    · rfl
    · rename_i d hd
      rw [h d hd]

theorem ReadFull_fields (c : Conn) (n : Nat) :
    (ReadFull c n).2.written = c.written ∧ (ReadFull c n).2.id = c.id ∧
      (ReadFull c n).2.writeResults = c.writeResults ∧ (ReadFull c n).2.closeErr = c.closeErr :=
  ⟨rfl, rfl, rfl, rfl⟩

theorem Session.Read_fields (s : Session) :
    s.Read.2.conn.written = s.conn.written ∧ s.Read.2.conn.id = s.conn.id ∧
      s.Read.2.conn.writeResults = s.conn.writeResults ∧
      s.Read.2.conn.closeErr = s.conn.closeErr := by
  simp only [Session.Read]
  split
  · exact ⟨rfl, rfl, rfl, rfl⟩
  · split <;> exact ⟨rfl, rfl, rfl, rfl⟩

theorem serveConn_fail_written (codec : Codec) (s : Server) (conn : Conn) (e : Exit)
    (h : (s.serveConn codec conn).1 = some e) (hne : ∀ we, e ≠ Exit.writeErr we) :
    (s.serveConn codec conn).2.written = conn.written := by
  have hr := (Session.Read_fields (NewSession conn)).1
  simp only [Server.serveConn] at h ⊢
  cases h1 : (NewSession conn).Read.1.2 with
  | some err => simp only [h1]; exact hr
  | none =>
    simp only [h1] at h ⊢
    cases h2 : codec.decode ((NewSession conn).Read.1.1.getD []) with
    | error e1 => simp only [h2]; exact hr
    | ok d =>
      simp only [h2] at h ⊢
      cases h3 : s.funcs.lookup d.Name with
      | none => simp only [h3]; exact hr
      | some f =>
        simp only [h3] at h ⊢
        cases h4 : f.Call (d.Args.map ValueOf) with
        | error p => simp only [h4]; exact hr
        | ok out =>
          simp only [h4] at h ⊢
          cases h5 : codec.encode ⟨d.Name, out.map RValue.Interface⟩ with
          | error e2 => simp only [h5]; exact hr
          | ok rb =>
            simp only [h5] at h ⊢
            cases h6 : ((NewSession conn).Read.2.Write rb).1 with
            | some err =>
              simp only [h6, Option.some.injEq] at h
              exact absurd h.symm (hne err)
            | none => simp [h6] at h

theorem acceptLoop_stops (codec : Codec) (s : Server) (pre : List Conn) (c : Conn)
    (post : List Conn) (e : Exit)
    (hpre : ∀ p ∈ pre, (s.serveConn codec p).1 = none)
    (hc : (s.serveConn codec c).1 = some e) :
    s.acceptLoop codec (pre ++ c :: post) =
      ⟨pre.map (fun p => (s.serveConn codec p).2) ++ [(s.serveConn codec c).2], post, e⟩ := by
  induction pre with
  | nil => simp [Server.acceptLoop, hc]
  | cons p ps ih =>
    have hp := hpre p (List.mem_cons_self p ps)
    have ih2 := ih (fun q hq => hpre q (List.mem_cons_of_mem p hq))
    simp [Server.acceptLoop, hp, ih2]

theorem map_ValueOf_Interface (args : List (Option Val)) :
    (args.map ValueOf).map (fun a => Option.bind a RValue.Interface) = args := by
  induction args with
  | nil => rfl
  | cons a rest ih =>
    show Option.bind (ValueOf a) RValue.Interface ::
      (rest.map ValueOf).map (fun a => Option.bind a RValue.Interface) = a :: rest
    rw [ih]
    cases a <;> rfl

theorem Call_ok_body (f : Func) (args : List (Option Val)) (out : List RValue)
    (h : f.Call (args.map ValueOf) = Except.ok out) : out = f.body args := by
  simp only [Func.Call] at h
  split at h
  · simp at h
  · split at h
    · simp at h
    · split at h
      · simp at h
      · rw [map_ValueOf_Interface] at h
        simp only [Except.ok.injEq] at h
        exact h.symm

/-! ## Claims about the registry and the server loop -/

/-- C3 (as the code has it): for every server state, name `n` and
implementations `f` and `g`, the call `Register(n, g)` after `Register(n, f)`
changes nothing; and when `n` was not registered before `Register(n, f)`, the
registry then maps `n` to `f`, and a request whose envelope names `n` is
served exactly as by a server whose only procedure is `f` under `n`. -/
theorem Register_first_wins (s : Server) (n : String) (f g : Func) :
    (s.Register n f).Register n g = s.Register n f ∧
    (s.funcs.lookup n = none →
      ((s.Register n f).Register n g).funcs.lookup n = some f ∧
      ∀ (codec : Codec) (conn : Conn) (d : RPCData),
        codec.decode ((NewSession conn).Read.1.1.getD []) = Except.ok d → d.Name = n →
        ((s.Register n f).Register n g).serveConn codec conn =
          (Server.mk s.addr [(n, f)]).serveConn codec conn) := by
  refine ⟨Register_twice s n f g, ?_⟩
  intro hfresh
  have hl : ((s.Register n f).Register n g).funcs.lookup n = some f := by
    rw [Register_twice]; exact Register_lookup_fresh s n f hfresh
  refine ⟨hl, ?_⟩
  intro codec conn d hd hn
  apply serveConn_congr
  intro d2 hd2
  have : d2 = d := by rw [hd] at hd2; exact (Except.ok.inj hd2).symm
  rw [this, hn, hl]
  simp [List.lookup]

/-- Witness of C3: on a new server, `addOne` then `addTwo` under the name
"addOne". -/
theorem Register_first_wins_witness :
    (((NewServer "127.0.0.1:8080").Register "addOne" addOne).Register "addOne" addTwo).funcs.lookup
        "addOne" = some addOne ∧
    (((NewServer "127.0.0.1:8080").Register "addOne" addOne).Register "addOne" addTwo).serveConn
        exampleCodec (requestConn 1 (bytesOf "Q5")) =
      (Server.mk "127.0.0.1:8080" [("addOne", addOne)]).serveConn exampleCodec
        (requestConn 1 (bytesOf "Q5")) :=
  ⟨((Register_first_wins (NewServer "127.0.0.1:8080") "addOne" addOne addTwo).2 rfl).1,
   ((Register_first_wins (NewServer "127.0.0.1:8080") "addOne" addOne addTwo).2 rfl).2
     exampleCodec (requestConn 1 (bytesOf "Q5")) ⟨"addOne", [some (Val.int 5)]⟩ rfl rfl⟩

/-- C3 fails as stated: on a server where "addOne" is already bound to
`addTwo`, after `Register("addOne", addOne)` and `Register("addOne", addTwo)`
the registry does not map the name to `addOne`, and a request for it with
argument 5 is answered with 7. -/
theorem Register_preregistered_counterexample :
    ((((NewServer "127.0.0.1:8080").Register "addOne" addTwo).Register "addOne" addOne).Register
        "addOne" addTwo).funcs.lookup "addOne" ≠ some addOne ∧
    (((((NewServer "127.0.0.1:8080").Register "addOne" addTwo).Register "addOne" addOne).Register
        "addOne" addTwo).serveConn exampleCodec (requestConn 1 (bytesOf "Q5"))).2.written =
      [Session.frame (bytesOf "R7")] := by
  refine ⟨?_, by decide⟩
  intro h
  have h2 : (((((NewServer "127.0.0.1:8080").Register "addOne" addTwo).Register "addOne"
      addOne).Register "addOne" addTwo).funcs.lookup "addOne").map
        (fun f => f.body [some (Val.int 5)]) =
      (some addOne).map (fun f => f.body [some (Val.int 5)]) := by rw [h]
  revert h2
  decide

/-- C4 (as the code has it): when the pass on one accepted connection fails,
`Server.Run` returns with that failure: the connections accepted before it
were each served, the connections after it are never accepted, and unless the
failing step is the write itself no buffer is handed to the failing
connection. -/
theorem Run_stops_at_first_failure (codec : Codec) (s : Server) (pre : List Conn) (c : Conn)
    (post : List Conn) (e : Exit)
    (hpre : ∀ p ∈ pre, (s.serveConn codec p).1 = none)
    (hc : (s.serveConn codec c).1 = some e) :
    (s.Run codec (some (pre ++ c :: post))).exit = e ∧
    (s.Run codec (some (pre ++ c :: post))).pending = post ∧
    (s.Run codec (some (pre ++ c :: post))).handled =
      pre.map (fun p => (s.serveConn codec p).2) ++ [(s.serveConn codec c).2] ∧
    ((∀ we, e ≠ Exit.writeErr we) → (s.serveConn codec c).2.written = c.written) := by
  simp only [Server.Run, acceptLoop_stops codec s pre c post e hpre hc, true_and]
  exact serveConn_fail_written codec s c e hc

/-- Witness of C4: a valid request, then a request for an unregistered name,
then another valid request. -/
theorem Run_stops_at_first_failure_witness :
    (addOneServer.Run exampleCodec (some ([requestConn 1 (bytesOf "Q5")] ++
        requestConn 2 (bytesOf "Q?") :: [requestConn 3 (bytesOf "Q5")]))).exit = Exit.noFunc "nope" ∧
    (addOneServer.Run exampleCodec (some ([requestConn 1 (bytesOf "Q5")] ++
        requestConn 2 (bytesOf "Q?") :: [requestConn 3 (bytesOf "Q5")]))).pending =
      [requestConn 3 (bytesOf "Q5")] ∧
    (addOneServer.Run exampleCodec (some ([requestConn 1 (bytesOf "Q5")] ++
        requestConn 2 (bytesOf "Q?") :: [requestConn 3 (bytesOf "Q5")]))).handled =
      [requestConn 1 (bytesOf "Q5")].map (fun p => (addOneServer.serveConn exampleCodec p).2) ++
        [(addOneServer.serveConn exampleCodec (requestConn 2 (bytesOf "Q?"))).2] ∧
    ((∀ we, Exit.noFunc "nope" ≠ Exit.writeErr we) →
      (addOneServer.serveConn exampleCodec (requestConn 2 (bytesOf "Q?"))).2.written =
        (requestConn 2 (bytesOf "Q?")).written) :=
  Run_stops_at_first_failure exampleCodec addOneServer [requestConn 1 (bytesOf "Q5")]
    (requestConn 2 (bytesOf "Q?")) [requestConn 3 (bytesOf "Q5")] (Exit.noFunc "nope")
    (by decide) (by decide)

/-- C4 fails as stated: after a request for an unregistered name on the first
connection, `Run` returns; the second connection, which carries a valid
request, is never accepted and nothing is written to it. -/
theorem Run_unknown_procedure_counterexample :
    addOneServer.Run exampleCodec
        (some [requestConn 1 (bytesOf "Q?"), requestConn 2 (bytesOf "Q5")]) =
      ⟨[⟨1, [], IOErr.EOF, [], []⟩], [requestConn 2 (bytesOf "Q5")], Exit.noFunc "nope"⟩ ∧
    (requestConn 2 (bytesOf "Q5")).written = [] ∧
    (addOneServer.serveConn exampleCodec (requestConn 2 (bytesOf "Q5"))).2.written =
      [Session.frame (bytesOf "R6")] := by
  decide

/-- C6 (as the code has it): when the request frame decodes to `{name, args}`,
`name` is registered to `f`, the reflective call of `f` on `args` returns and
the response envelope encodes, one pass of the server hands the connection
exactly one buffer, the frame of the encoding of `{name, results}`, where the
results are those of `f` applied to `args`, in order; the pass then ends
normally or with the write's error. -/
theorem serveConn_dispatch (codec : Codec) (s : Server) (conn : Conn) (b : List Byte)
    (name : String) (args : List (Option Val)) (f : Func) (out : List RValue) (rb : List Byte)
    (hread : (NewSession conn).Read.1 = (some b, none))
    (hdec : codec.decode b = Except.ok ⟨name, args⟩)
    (hreg : s.funcs.lookup name = some f)
    (hcall : f.Call (args.map ValueOf) = Except.ok out)
    (henc : codec.encode ⟨name, out.map RValue.Interface⟩ = Except.ok rb) :
    out = f.body args ∧
    (s.serveConn codec conn).2.written = conn.written ++ [Session.frame rb] ∧
    ((s.serveConn codec conn).1 = none ∨
      ∃ err, (s.serveConn codec conn).1 = some (Exit.writeErr err)) := by
  have h1 : (NewSession conn).Read.1.2 = none := by rw [hread]
  have h2 : (NewSession conn).Read.1.1.getD [] = b := by rw [hread]; rfl
  have hw := (Session.Read_fields (NewSession conn)).1
  refine ⟨Call_ok_body f args out hcall, ?_, ?_⟩
  · simp only [Server.serveConn, h1, h2, hdec, hreg, hcall, henc]
    split
    · simp only [Session.Write_conn, Conn.Write_written, hw]; rfl
    · simp only [Session.Write_conn, Conn.Write_written, hw]; rfl
  · simp only [Server.serveConn, h1, h2, hdec, hreg, hcall, henc]
    split
    · exact Or.inr ⟨_, rfl⟩
    · exact Or.inl rfl

/-- Witness of C6: `addOne` registered under "addOne" and called with 5
answers 6. -/
theorem serveConn_dispatch_witness :
    [RValue.of (Val.int 6)] = addOne.body [some (Val.int 5)] ∧
    (addOneServer.serveConn exampleCodec (requestConn 1 (bytesOf "Q5"))).2.written =
      (requestConn 1 (bytesOf "Q5")).written ++ [Session.frame (bytesOf "R6")] ∧
    ((addOneServer.serveConn exampleCodec (requestConn 1 (bytesOf "Q5"))).1 = none ∨
      ∃ err, (addOneServer.serveConn exampleCodec (requestConn 1 (bytesOf "Q5"))).1 =
        some (Exit.writeErr err)) :=
  serveConn_dispatch exampleCodec addOneServer (requestConn 1 (bytesOf "Q5")) (bytesOf "Q5")
    "addOne" [some (Val.int 5)] addOne [RValue.of (Val.int 6)] (bytesOf "R6")
    (by decide) rfl rfl rfl rfl

/-- C6 fails as stated: a request that names the registered "addOne" but
carries no argument makes the reflective call panic; nothing is written. -/
theorem serveConn_arity_counterexample :
    addOneServer.funcs.lookup "addOne" = some addOne ∧
    exampleCodec.decode (bytesOf "Q0") = Except.ok ⟨"addOne", []⟩ ∧
    addOneServer.serveConn exampleCodec (requestConn 1 (bytesOf "Q0")) =
      (some (Exit.panicked Panic.callArgCount), ⟨1, [], IOErr.EOF, [], []⟩) := by
  exact ⟨rfl, rfl, by decide⟩

/-! ## Lemmas: the client stub -/

theorem AssignableTo_self (t : Ty) : t.AssignableTo t = true := by
  cases t <;> rfl

theorem slotValue_typ (t : Ty) (a : Option Val)
    (h : ∀ v, a = some v → v.typeOf.AssignableTo t = true) :
    (slotValue t a).typ.AssignableTo t = true := by
  cases a with
  | none => exact AssignableTo_self t
  | some v => exact h v rfl

theorem outArgsFrom_ok (fnType : FuncType) :
    ∀ (resp : List (Option Val)) (i : Nat), i + resp.length ≤ fnType.outs.length →
      outArgsFrom fnType i resp =
        Except.ok ((List.zipWith slotValue (fnType.outs.drop i) resp).map some) := by
  intro resp
  induction resp with
  | nil => intro i _; simp [outArgsFrom]
  | cons a rest ih =>
    intro i h
    have hi : i < fnType.outs.length := by simp at h; omega
    have hrec := ih (i + 1) (by simp at h; omega)
    have hdrop : fnType.outs.drop i = fnType.outs[i] :: fnType.outs.drop (i + 1) :=
      List.drop_eq_getElem_cons hi
    have hout : fnType.Out i = Except.ok fnType.outs[i] := by
      simp [FuncType.Out, List.getElem?_eq_getElem hi]
    rw [hdrop]
    cases a with
    | none => simp only [outArgsFrom, hout, hrec, List.zipWith_cons_cons, List.map_cons, slotValue]
    | some v => simp only [outArgsFrom, hrec, List.zipWith_cons_cons, List.map_cons, slotValue, ValueOf]

theorem resultsCheck_ok :
    ∀ (ts : List Ty) (resp : List (Option Val)), resp.length = ts.length →
      (∀ (i : Nat) (v : Val) (t : Ty), resp[i]? = some (some v) → ts[i]? = some t →
        v.typeOf.AssignableTo t = true) →
      resultsCheck ts ((List.zipWith slotValue ts resp).map some) =
        Except.ok (List.zipWith slotValue ts resp) := by
  intro ts
  induction ts with
  | nil => intro resp _ _; simp [resultsCheck]
  | cons t ts ih =>
    intro resp hlen hty
    cases resp with
    | nil => simp at hlen
    | cons a rest =>
      have hrec := ih rest (by simpa using hlen)
        (fun i v t2 h1 h2 => hty (i + 1) v t2 (by simpa using h1) (by simpa using h2))
      have ha := slotValue_typ t a (fun v hv => hty 0 v t (by simp [hv]) (by simp))
      simp [resultsCheck, ha, hrec]

theorem stubResults_ok (fnType : FuncType) (resp : List (Option Val))
    (hlen : resp.length = fnType.outs.length)
    (hty : ∀ (i : Nat) (v : Val) (t : Ty), resp[i]? = some (some v) → fnType.outs[i]? = some t →
      v.typeOf.AssignableTo t = true) :
    stubResults fnType resp = Except.ok (List.zipWith slotValue fnType.outs resp) := by
  have h1 := outArgsFrom_ok fnType resp 0 (by omega)
  simp only [List.drop_zero] at h1
  have h2 := resultsCheck_ok fnType.outs resp hlen hty
  simp [stubResults, h1, makeFuncResults, hlen, h2]

theorem stub_eq (codec : Codec) (c : Client) (rpcName : String) (fnType : FuncType)
    (args : List RValue) (resp : RPCData)
    (hrt : (c.roundTrip codec rpcName args).1 = Except.ok resp) :
    (c.stub codec rpcName fnType args).1 = stubResults fnType resp.Args := by
  simp only [Client.stub, Client.callRPC_f, hrt, stubResults]
  cases outArgsFrom fnType 0 resp.Args <;> rfl

theorem stub_conn (codec : Codec) (c : Client) (rpcName : String) (fnType : FuncType)
    (args : List RValue) :
    (c.stub codec rpcName fnType args).2 = (c.roundTrip codec rpcName args).2 := by
  simp only [Client.stub, Client.callRPC_f]
  cases h : (c.roundTrip codec rpcName args).1 with
  | error p => rfl
  | ok resp =>
    dsimp only
    cases h2 : outArgsFrom fnType 0 resp.Args <;> rfl

theorem ReadFull_suffix (c : Conn) (n : Nat) :
    ∃ k, (ReadFull c n).2.incoming.flatten = c.incoming.flatten.drop k := by
  by_cases h : n ≤ c.incoming.flatten.length
  · exact ⟨n, (ReadFull_enough c n h).2⟩
  · refine ⟨c.incoming.flatten.length, ?_⟩
    rw [(ReadFull_short c n (by omega)).2]
    simp

theorem Session.Read_suffix (s : Session) :
    ∃ k, s.Read.2.conn.incoming.flatten = s.conn.incoming.flatten.drop k := by
  obtain ⟨k1, h1⟩ := ReadFull_suffix s.conn 4
  obtain ⟨k2, h2⟩ := ReadFull_suffix (ReadFull s.conn 4).2 (Uint32 (ReadFull s.conn 4).1.1)
  simp only [Session.Read]
  split
  · exact ⟨k1, h1⟩
  · split
    · exact ⟨k1 + k2, by rw [h2, h1, List.drop_drop]⟩
    · exact ⟨k1 + k2, by rw [h2, h1, List.drop_drop]⟩

theorem roundTrip_conn (codec : Codec) (c : Client) (rpcName : String) (args : List RValue) :
    (c.roundTrip codec rpcName args).2.conn.id = c.conn.id ∧
    (∀ b, codec.encode ⟨rpcName, args.map RValue.Interface⟩ = Except.ok b →
      (c.roundTrip codec rpcName args).2.conn.written = c.conn.written ++ [Session.frame b]) ∧
    (∃ k, (c.roundTrip codec rpcName args).2.conn.incoming.flatten =
      c.conn.incoming.flatten.drop k) := by
  simp only [Client.roundTrip]
  cases he : codec.encode ⟨rpcName, args.map RValue.Interface⟩ with
  | error e => exact ⟨rfl, fun b hb => by simp at hb, ⟨0, rfl⟩⟩
  | ok b =>
    have hwc := Session.Write_conn (NewSession c.conn) b
    have hww : ((NewSession c.conn).Write b).2.conn.written = c.conn.written ++ [Session.frame b] := by
      rw [hwc]; exact Conn.Write_written _ _
    have hwr := Conn.Write_rest c.conn (Session.frame b)
    have hwi : ((NewSession c.conn).Write b).2.conn.id = c.conn.id := by rw [hwc]; exact hwr.1
    have hwin : ((NewSession c.conn).Write b).2.conn.incoming = c.conn.incoming := by
      rw [hwc]; exact hwr.2.1
    have hrf := Session.Read_fields ((NewSession c.conn).Write b).2
    obtain ⟨k, hk⟩ := Session.Read_suffix ((NewSession c.conn).Write b).2
    rw [hwin] at hk
    simp only
    cases hw : ((NewSession c.conn).Write b).1 with
    | some err =>
      simp only
      exact ⟨hwi, fun b2 hb2 => by rw [← Except.ok.inj hb2]; exact hww, ⟨0, by rw [hwin]; rfl⟩⟩
    | none =>
      simp only
      have hfin : ∀ x : Except Panic RPCData,
          ((x, (⟨((NewSession c.conn).Write b).2.Read.2.conn⟩ : Client)).2.conn.id = c.conn.id) ∧
          (∀ b2, (Except.ok b : Except Nat (List Byte)) = Except.ok b2 →
            (x, (⟨((NewSession c.conn).Write b).2.Read.2.conn⟩ : Client)).2.conn.written =
              c.conn.written ++ [Session.frame b2]) ∧
          (∃ k, (x, (⟨((NewSession c.conn).Write b).2.Read.2.conn⟩ : Client)).2.conn.incoming.flatten
            = c.conn.incoming.flatten.drop k) := by
        intro x
        refine ⟨by rw [← hwi]; exact hrf.2.1, ?_, ⟨k, hk⟩⟩
        intro b2 hb2
        rw [← Except.ok.inj hb2, ← hww]
        exact hrf.1
      split
      · exact hfin _
      · split
        · exact hfin _
        · exact hfin _

theorem zipWith_slot (ts : List Ty) (resp : List (Option Val)) (i : Nat) (t : Ty)
    (a : Option Val) (ht : ts[i]? = some t) (ha : resp[i]? = some a) :
    (List.zipWith slotValue ts resp)[i]? = some (slotValue t a) := by
  rw [List.getElem?_zipWith, ht, ha]

/-! ## Claims about the client stub -/

/-- C5 (as the code has it): when the round trip has decoded a response with
exactly one value per return slot of the prototype, each present value
assignable to its slot's type, the stub returns one valid Value per slot: for
slot `i`, the zero value of the slot's declared type when response value `i`
is nil, and the response value itself otherwise. -/
theorem stub_slot_values (codec : Codec) (c : Client) (rpcName : String) (fnType : FuncType)
    (args : List RValue) (resp : RPCData)
    (hrt : (c.roundTrip codec rpcName args).1 = Except.ok resp)
    (hlen : resp.Args.length = fnType.outs.length)
    (hty : ∀ (i : Nat) (v : Val) (t : Ty), resp.Args[i]? = some (some v) →
      fnType.outs[i]? = some t → v.typeOf.AssignableTo t = true) :
    ∃ r : List RValue,
      (c.stub codec rpcName fnType args).1 = Except.ok r ∧
      r.length = fnType.outs.length ∧
      ∀ (i : Nat) (t : Ty), fnType.outs[i]? = some t →
        (resp.Args[i]? = some none → r[i]? = some (Zero t)) ∧
        (∀ v, resp.Args[i]? = some (some v) → r[i]? = some (RValue.of v)) := by
  refine ⟨List.zipWith slotValue fnType.outs resp.Args, ?_, ?_, ?_⟩
  · rw [stub_eq codec c rpcName fnType args resp hrt]
    exact stubResults_ok fnType resp.Args hlen hty
  · rw [List.length_zipWith, hlen, Nat.min_self]
  · intro i t ht
    exact ⟨fun h => zipWith_slot _ _ i t none ht h, fun v h => zipWith_slot _ _ i t (some v) ht h⟩

/-- Witness of C5: the prototype `func(int) (User, error)` of the test and the
response `(User{"Jack", 30}, nil)`: the caller gets the record and the zero
value of type `error`. -/
theorem stub_slot_values_witness :
    ((clientWith 9 [bytesOf "J"]).stub exampleCodec "queryUser" queryProto
        [RValue.of (Val.int 2)]).1 = Except.ok [RValue.of (Val.User "Jack" 30), Zero Ty.error] ∧
    ∃ r : List RValue,
      ((clientWith 9 [bytesOf "J"]).stub exampleCodec "queryUser" queryProto
        [RValue.of (Val.int 2)]).1 = Except.ok r ∧
      r.length = queryProto.outs.length ∧
      ∀ (i : Nat) (t : Ty), queryProto.outs[i]? = some t →
        ((RPCData.mk "queryUser" [some (Val.User "Jack" 30), none]).Args[i]? = some none →
          r[i]? = some (Zero t)) ∧
        (∀ v, (RPCData.mk "queryUser" [some (Val.User "Jack" 30), none]).Args[i]? = some (some v) →
          r[i]? = some (RValue.of v)) :=
  ⟨rfl,
   stub_slot_values exampleCodec (clientWith 9 [bytesOf "J"]) "queryUser" queryProto
    [RValue.of (Val.int 2)] ⟨"queryUser", [some (Val.User "Jack" 30), none]⟩ rfl rfl
    (fun i v t h1 h2 => by
      match i, h1, h2 with
      | 0, h1, h2 =>
        simp only [List.getElem?_cons_zero, Option.some.injEq] at h1
        simp only [queryProto, List.getElem?_cons_zero, Option.some.injEq] at h2
        rw [← h1, ← h2]; rfl
      | 1, h1, _ => simp at h1
      | (n + 2), h1, _ => simp at h1)⟩

/-- C5 fails as stated: for the prototype `func(int) int` and the decoded
response values `[nil, nil]` the stub does not return: the loop asks the
prototype for the type of a second return slot and panics. -/
theorem stub_extra_nil_counterexample :
    exampleCodec.decode (bytesOf "NN") = Except.ok ⟨"addOne", [none, none]⟩ ∧
    ((clientWith 9 [bytesOf "NN"]).stub exampleCodec "addOne" intToInt
        [RValue.of (Val.int 5)]).1 = Except.error Panic.outIndexRange :=
  ⟨rfl, rfl⟩

/-- C10 (as the code has it): every invocation of a stub performs its round
trip on the one connection its Client was made with. For two successive
invocations whose request envelopes encode, the Client still holds that
connection afterwards, both request frames were handed to it, in order, and
each invocation leaves the unread rest of that connection's stream to the
next. -/
theorem stub_shares_connection (codec : Codec) (c : Client) (name1 name2 : String)
    (ty1 ty2 : FuncType) (args1 args2 : List RValue) (b1 b2 : List Byte)
    (h1 : codec.encode ⟨name1, args1.map RValue.Interface⟩ = Except.ok b1)
    (h2 : codec.encode ⟨name2, args2.map RValue.Interface⟩ = Except.ok b2) :
    (c.stub codec name1 ty1 args1).2.conn.id = c.conn.id ∧
    ((c.stub codec name1 ty1 args1).2.stub codec name2 ty2 args2).2.conn.id = c.conn.id ∧
    ((c.stub codec name1 ty1 args1).2.stub codec name2 ty2 args2).2.conn.written =
      c.conn.written ++ [Session.frame b1, Session.frame b2] ∧
    ∃ k, ((c.stub codec name1 ty1 args1).2.stub codec name2 ty2 args2).2.conn.incoming.flatten =
      c.conn.incoming.flatten.drop k := by
  have e1 := stub_conn codec c name1 ty1 args1
  have e2 := stub_conn codec (c.stub codec name1 ty1 args1).2 name2 ty2 args2
  have r1 := roundTrip_conn codec c name1 args1
  have r2 := roundTrip_conn codec (c.stub codec name1 ty1 args1).2 name2 args2
  rw [← e2] at r2
  rw [← e1] at r1
  obtain ⟨k1, hk1⟩ := r1.2.2
  obtain ⟨k2, hk2⟩ := r2.2.2
  refine ⟨r1.1, by rw [r2.1, r1.1], ?_, ⟨k1 + k2, by rw [hk2, hk1, List.drop_drop]⟩⟩
  rw [r2.2.1 b2 h2, r1.2.1 b1 h1]
  simp

/-- Witness of C10: two calls of `addOne` through one Client. -/
theorem stub_shares_connection_witness :
    ((clientWith 9 [bytesOf "R6", bytesOf "R6"]).stub exampleCodec "addOne" intToInt
      [RValue.of (Val.int 5)]).2.conn.id = (clientWith 9 [bytesOf "R6", bytesOf "R6"]).conn.id ∧
    (((clientWith 9 [bytesOf "R6", bytesOf "R6"]).stub exampleCodec "addOne" intToInt
      [RValue.of (Val.int 5)]).2.stub exampleCodec "addOne" intToInt
        [RValue.of (Val.int 5)]).2.conn.id = (clientWith 9 [bytesOf "R6", bytesOf "R6"]).conn.id ∧
    (((clientWith 9 [bytesOf "R6", bytesOf "R6"]).stub exampleCodec "addOne" intToInt
      [RValue.of (Val.int 5)]).2.stub exampleCodec "addOne" intToInt
        [RValue.of (Val.int 5)]).2.conn.written =
      (clientWith 9 [bytesOf "R6", bytesOf "R6"]).conn.written ++
        [Session.frame (bytesOf "Q5"), Session.frame (bytesOf "Q5")] ∧
    ∃ k, (((clientWith 9 [bytesOf "R6", bytesOf "R6"]).stub exampleCodec "addOne" intToInt
      [RValue.of (Val.int 5)]).2.stub exampleCodec "addOne" intToInt
        [RValue.of (Val.int 5)]).2.conn.incoming.flatten =
      (clientWith 9 [bytesOf "R6", bytesOf "R6"]).conn.incoming.flatten.drop k :=
  stub_shares_connection exampleCodec (clientWith 9 [bytesOf "R6", bytesOf "R6"]) "addOne" "addOne"
    intToInt intToInt [RValue.of (Val.int 5)] [RValue.of (Val.int 5)] (bytesOf "Q5") (bytesOf "Q5")
    rfl rfl

/-- C10 fails as stated: two successive invocations through one Client both
write to the connection numbered 9, and the second reads its response from
that connection's stream behind the first's. -/
theorem stub_same_connection_counterexample :
    ((clientWith 9 [bytesOf "R6", bytesOf "R7"]).stub exampleCodec "addOne" intToInt
      [RValue.of (Val.int 5)]) =
      (Except.ok [RValue.of (Val.int 6)],
        ⟨⟨9, [Session.frame (bytesOf "R7")], IOErr.EOF, [], [Session.frame (bytesOf "Q5")]⟩⟩) ∧
    (((clientWith 9 [bytesOf "R6", bytesOf "R7"]).stub exampleCodec "addOne" intToInt
      [RValue.of (Val.int 5)]).2.stub exampleCodec "addOne" intToInt [RValue.of (Val.int 5)]) =
      (Except.ok [RValue.of (Val.int 7)],
        ⟨⟨9, [], IOErr.EOF, [],
          [Session.frame (bytesOf "Q5"), Session.frame (bytesOf "Q5")]⟩⟩) :=
  ⟨rfl, rfl⟩

end rpc
